import Mathlib

/-!
Shallow embedding of src/d_auto.py (Calyx-Research/automate): the financial
data automation pipeline. Covered components: the PDF table extractor
(PDFDataExtractor.extract_nge_data), the two HTTP fetchers
(TradingViewDataFetcher.fetch_data, NGNMarketDataFetcher.fetch_all_companies),
the reconciliation step (DataProcessor.merge_data / _clean_data), the
duplicate-tolerant database sink (DatabaseManager.upload_data,
_upload_with_duplicate_skip, the module-level upload_market_stats), the
report downloader (CalyxReportDownloader.download_report) and the
orchestrator (FinancialDataAutomation.run_full_pipeline).

Modelling conventions: Python strings are lists of characters; pandas cell
values are an explicit Cell type with a NaN constructor; Python code that can
raise is Except-valued; the unbounded pagination loop carries explicit fuel.
-/

/-! ## Python string primitives -/

/-- Python str.strip(): remove leading and trailing whitespace. -/
def pyStrip (cs : List Char) : List Char :=
  ((cs.dropWhile Char.isWhitespace).reverse.dropWhile Char.isWhitespace).reverse

/-- Python str.split() with no argument: split on whitespace runs, never
producing empty words. -/
def pySplit : List Char → List (List Char)
  | [] => []
  | c :: cs =>
    if c.isWhitespace then pySplit cs
    else (c :: cs.takeWhile (fun x => !x.isWhitespace)) ::
      pySplit (cs.dropWhile (fun x => !x.isWhitespace))
termination_by cs => cs.length
decreasing_by
  · simp only [List.length_cons]; omega
  · simp only [List.length_cons]
    exact Nat.lt_succ_of_le ((List.dropWhile_sublist _).length_le)

/-- Python str.isdigit(): nonempty and every character a digit. -/
def pyIsDigit (cs : List Char) : Bool := !cs.isEmpty && cs.all Char.isDigit

/-- Python str.isalnum(): nonempty and every character alphanumeric. -/
def pyIsAlnum (cs : List Char) : Bool := !cs.isEmpty && cs.all Char.isAlphanum

/-- Python substring membership (needle in haystack) as a positional search. -/
def pyContains (hay needle : List Char) : Bool :=
  (List.range (hay.length + 1)).any (fun i => needle.isPrefixOf (hay.drop i))

/-- Python str.lower(), per character. -/
def pyLower (cs : List Char) : List Char := cs.map Char.toLower

/-- The space-joined form of a list of cell texts; models the degenerate PDF
rows whose whole content is collapsed into the first cell as space-separated
tokens. -/
def joinSpaces : List (List Char) → List Char
  | [] => []
  | [w] => w
  | w :: ws => w ++ ' ' :: joinSpaces ws

/-! ## Decimal values and pandas numeric coercion -/

/-- A decimal number as pandas to_numeric produces it from report text: an
integer mantissa m scaled by 10 to the minus e. -/
structure Dec where
  m : Int
  e : Nat
deriving DecidableEq

/-- The rational value of a decimal. -/
def Dec.toRat (d : Dec) : ℚ := (d.m : ℚ) / (10 : ℚ) ^ d.e

/-- Big-endian decimal digit characters of a natural number (empty for 0). -/
def natChars (n : Nat) : List Char := ((Nat.digits 10 n).map Nat.digitChar).reverse

/-- Reads a run of decimal digit characters back as a natural number. -/
def charsToNat (cs : List Char) : Nat := cs.foldl (fun a c => 10 * a + (c.toNat - 48)) 0

/-- Decimal rendering of a nonnegative mantissa with exactly e fractional
digits: how str() presents the numeric values the pipeline produces. -/
def decChars (n e : Nat) : List Char :=
  let ds := natChars n
  let padded := List.replicate (e + 1 - ds.length) '0' ++ ds
  if e = 0 then padded
  else padded.take (padded.length - e) ++ '.' :: padded.drop (padded.length - e)

/-- Decimal rendering of a signed decimal value. -/
def Dec.render (d : Dec) : List Char :=
  (if d.m < 0 then ['-'] else []) ++ decChars d.m.natAbs d.e

/-- Parses an unsigned decimal literal: digit run with at most one dot. -/
def parseUnsigned (cs : List Char) : Option (Nat × Nat) :=
  let ip := cs.takeWhile (fun c => c ≠ '.')
  match cs.dropWhile (fun c => c ≠ '.') with
  | [] =>
    if ip.all Char.isDigit && !ip.isEmpty then some (charsToNat ip, 0) else none
  | _ :: fp =>
    if ip.all Char.isDigit && fp.all Char.isDigit && !(ip.isEmpty && fp.isEmpty) then
      some (charsToNat (ip ++ fp), fp.length)
    else none

/-- Parses a decimal with an optional leading minus sign; any other text is
not numeric and reads as NaN downstream. -/
def parseDec (cs : List Char) : Option Dec :=
  match cs with
  | [] => none
  | c :: rest =>
    if c = '-' then (parseUnsigned rest).map (fun p => Dec.mk (-(p.1 : Int)) p.2)
    else (parseUnsigned (c :: rest)).map (fun p => Dec.mk (p.1 : Int) p.2)

/-- A pandas cell as the pipeline sees it: text, a parsed number, or NaN. -/
inductive Cell
  | str (s : List Char)
  | num (d : Dec)
  | nan
deriving DecidableEq

/-- Python str() of a cell as .astype(str) applies it (line 317 of the
source); NaN prints as the text nan. -/
def astypeStr : Cell → List Char
  | .str s => s
  | .num d => d.render
  | .nan => ['n', 'a', 'n']

/-- pd.to_numeric(..., errors=coerce): parse, or NaN on failure. -/
def toNumericCoerce (cs : List Char) : Cell :=
  match parseDec cs with
  | some d => .num d
  | none => .nan

/-- One numeric-column cleaning step of extract_nge_data (lines 315-319):
astype(str), remove commas, empty text to NaN, to_numeric with coercion. -/
def coerceCell (c : Cell) : Cell :=
  let s := (astypeStr c).filter (fun ch => ch ≠ ',')
  if s = [] then .nan else toNumericCoerce s

/-! ## PDFDataExtractor.extract_nge_data (lines 271-325) -/

/-- The rest-empty test of line 291: a trailing cell counts as empty when it
is None or whitespace-only text. -/
def cellBlank (c : Option (List Char)) : Bool :=
  match c with
  | none => true
  | some s => (pyStrip s).isEmpty

/-- One iteration of the row loop of extract_nge_data (lines 285-306):
the accepted row appended to all_data, if any. The first branch mirrors the
concatenated-row recovery of lines 289-297 (only taken when the whole row is
collapsed into a digit-led first cell and at least 13 whitespace tokens are
available); the fallthrough mirrors the verbatim acceptance heuristic of
lines 299-306. Rows passing neither check yield none: dropped silently. -/
def processRow (row : List (Option (List Char))) : Option (List (Option (List Char))) :=
  match row with
  | [] => none
  | cell0 :: rest =>
    match cell0 with
    | none => none
    | some s0 =>
      if s0.isEmpty then none
      else
        let first_col := pyStrip s0
        let normal : Option (List (Option (List Char))) :=
          if !first_col.isEmpty &&
              (pyIsDigit first_col ||
               (decide (first_col.length ≤ 15) &&
                 pyIsAlnum (first_col.filter (fun c => c ≠ '.' && c ≠ '-' && c ≠ '/'))) ||
               pyIsDigit (first_col.filter (fun c => c ≠ '.' && c ≠ '-' && c ≠ ',')) ||
               (decide (first_col.length ≤ 10) && first_col.any Char.isAlphanum))
          then some row else none
        if !first_col.isEmpty && first_col.contains ' ' &&
            pyIsDigit ((pySplit first_col).headD []) then
          if rest.all cellBlank then
            if 13 ≤ (pySplit first_col).length then
              some (((pySplit first_col).take 13).map some)
            else normal
          else normal
        else normal

/-- The page loop of extract_nge_data (lines 282-306): pages whose table
detection returns nothing contribute no rows; detected rows pass through
processRow. -/
def extractTables (pages : List (Option (List (List (Option (List Char)))))) :
    List (List (Option (List Char))) :=
  pages.flatMap (fun t =>
    match t with
    | none => []
    | some tbl => tbl.filterMap processRow)

/-- One extracted record (line 278-279 column list); the percent-change
column is renamed change_percent at this boundary (line 322) and the business
date is stamped on every row (line 309). openPrice stands for the source
column named Open. -/
structure ReportRow where
  sn : Option (List Char)
  symbol : Option (List Char)
  pclose : Cell
  openPrice : Cell
  high : Cell
  low : Cell
  close : Cell
  change : Cell
  change_percent : Cell
  deals : Cell
  volume : Cell
  value : Cell
  vwap : Cell
  date : List Char
deriving DecidableEq

/-- astype(str) of a raw table cell: a missing cell (Python None) prints as
the text None before numeric coercion. -/
def coerceRaw (c : Option (List Char)) : Cell :=
  coerceCell (.str (match c with | some s => s | none => ['N', 'o', 'n', 'e']))

/-- DataFrame construction plus numeric cleaning for one accepted 13-cell
row: columns 0 and 1 stay textual, columns 2-12 are coerced. -/
def toReportRow (date : List Char) (raw : List (Option (List Char))) : ReportRow :=
  ⟨raw.getD 0 none, raw.getD 1 none,
   coerceRaw (raw.getD 2 none), coerceRaw (raw.getD 3 none), coerceRaw (raw.getD 4 none),
   coerceRaw (raw.getD 5 none), coerceRaw (raw.getD 6 none), coerceRaw (raw.getD 7 none),
   coerceRaw (raw.getD 8 none), coerceRaw (raw.getD 9 none), coerceRaw (raw.getD 10 none),
   coerceRaw (raw.getD 11 none), coerceRaw (raw.getD 12 none), date⟩

/-- PDFDataExtractor.extract_nge_data (lines 271-325) on well-shaped pages:
accepted raw rows become ReportRows with coerced numeric columns and the
supplied date. -/
def extract_nge_data (pages : List (Option (List (List (Option (List Char))))))
    (date : List Char) : List ReportRow :=
  (extractTables pages).map (toReportRow date)

/-! ## The symbol exclusion regex of _clean_data (line 713) -/

/-- Case-insensitive literal match at the start of a character list: one
alternative of the exclusion regex tried at one position. -/
def ciMatchAt (p cs : List Char) : Bool :=
  decide (p.length ≤ cs.length) && (cs.take p.length).map Char.toUpper == p

/-- The digit character class matched at the start of a character list. -/
def headIsDigit (cs : List Char) : Bool :=
  match cs with
  | c :: _ => c.isDigit
  | [] => false

/-- One position of the regex search for ETF, EFT, FGSUK (case-insensitive)
or a decimal digit. -/
def exclMatchAt (cs : List Char) : Bool :=
  ciMatchAt ['E', 'T', 'F'] cs || ciMatchAt ['E', 'F', 'T'] cs ||
  ciMatchAt ['F', 'G', 'S', 'U', 'K'] cs ||
  headIsDigit cs

/-- re.search of the exclusion pattern of line 713: try every start
position of the haystack. -/
def reSearchExcl (cs : List Char) : Bool :=
  (List.range (cs.length + 1)).any (fun i => exclMatchAt (cs.drop i))

/-- The specification reading of the exclusion pattern: the uppercased symbol
contains ETF, EFT or FGSUK as a substring, or the symbol contains a digit. -/
def SpecExcluded (s : String) : Prop :=
  (∃ l r, s.toList.map Char.toUpper = l ++ ['E', 'T', 'F'] ++ r) ∨
  (∃ l r, s.toList.map Char.toUpper = l ++ ['E', 'F', 'T'] ++ r) ∨
  (∃ l r, s.toList.map Char.toUpper = l ++ ['F', 'G', 'S', 'U', 'K'] ++ r) ∨
  (∃ c ∈ s.toList, c.isDigit = true)

/-! ## DataProcessor.merge_data and _clean_data (lines 664-733) -/

/-- A row of the extracted report frame as merge_data consumes it: the join
key plus its remaining columns. -/
structure CRow where
  symbol : Option String
  payload : List Cell
deriving DecidableEq

/-- A quotes-frame row restricted to the merged columns Symbol and P/E. -/
structure TVRow where
  symbol : Option String
  pe : Cell
deriving DecidableEq

/-- A directory-frame row restricted to Symbol, Market cap and Sector. -/
structure NgxRow where
  symbol : Option String
  marketCap : Cell
  sector : Cell
deriving DecidableEq

/-- The result of the first merge (report rows plus P/E). -/
structure M1Row where
  base : CRow
  pe : Cell
deriving DecidableEq

/-- The fully merged row (plus Market cap and Sector). -/
structure MRow where
  base : CRow
  pe : Cell
  marketCap : Cell
  sector : Cell
deriving DecidableEq

/-- pandas merge key equality: present keys match on string equality, and
missing (NaN/None) keys match each other, so the comparison is equality of
the optional key. -/
def symEq : Option String → Option String → Bool
  | some a, some b => a == b
  | none, none => true
  | _, _ => false

/-- pd.merge(..., on=Symbol, how=left): every left row appears; each matching
right row contributes one output row; an unmatched left row gets NaN fills. -/
def leftJoin {α β γ : Type} (lk : α → Option String) (rk : β → Option String)
    (mk : α → Option β → γ) (ls : List α) (rs : List β) : List γ :=
  ls.flatMap (fun l =>
    let ms := rs.filter (fun r => symEq (lk l) (rk r))
    if ms.isEmpty then [mk l none] else ms.map (fun r => mk l (some r)))

/-- A fetched DataFrame: its column names (an empty fetch produces a frame
with no columns at all, like bare pd.DataFrame()) plus its typed rows. -/
structure TVFrame where
  cols : List String
  rows : List TVRow
deriving DecidableEq

/-- The directory frame with its column names and typed rows. -/
structure NgxFrame where
  cols : List String
  rows : List NgxRow
deriving DecidableEq

/-- Column selection df[[c1, ...]]: KeyError when any requested column is
absent from the frame. -/
def selectCols {ρ : Type} (need : List String) (cols : List String) (rows : List ρ) :
    Except String (List ρ) :=
  if need.all (fun c => cols.contains c) then .ok rows else .error "KeyError"

/-- The fixed exclusion list of _clean_data (lines 704-706). -/
def excluded_symbols : List String :=
  ["VSPBONDETF", "VETGOODS", "LOTUSHAL15", "GREENWETF", "STANBICETF30",
   "MERVALUE", "SIAMLETF40", "MERGROWTH", "VETGRIF30", "VETINDETF",
   "VETBANK", "NEWGOLD"]

/-- df.Symbol.isin(list): a NaN symbol is in no list. -/
def symbolIsIn (sym : Option String) (l : List String) : Bool :=
  match sym with
  | some s => l.contains s
  | none => false

/-- df.Symbol.str.contains(pattern, regex=True, na=False): NaN counts as no
match (line 714). -/
def symbolMatchesPattern (sym : Option String) : Bool :=
  match sym with
  | some s => reSearchExcl s.toList
  | none => false

/-- Stage 1 of _clean_data (line 709): drop rows whose symbol is in the fixed
exclusion list. -/
def specificStage (df : List MRow) : List MRow :=
  df.filter (fun r => !symbolIsIn r.base.symbol excluded_symbols)

/-- Stage 2 of _clean_data (line 714): drop rows whose symbol matches the
exclusion regex. -/
def patternStage (df : List MRow) : List MRow :=
  df.filter (fun r => !symbolMatchesPattern r.base.symbol)

/-- df.replace of whitespace-only text by NaN, on one cell (line 722). -/
def blankToNan (c : Cell) : Cell :=
  match c with
  | .str s => if (pyStrip s).isEmpty then .nan else .str s
  | x => x

/-- The same replacement applied to the Symbol column. -/
def blankSymToNan (s : Option String) : Option String :=
  match s with
  | some t => if (pyStrip t.toList).isEmpty then none else some t
  | none => none

/-- The blank-to-NaN replacement over a whole merged row. -/
def mrowReplaceBlanks (r : MRow) : MRow :=
  ⟨⟨blankSymToNan r.base.symbol, r.base.payload.map blankToNan⟩,
   blankToNan r.pe, blankToNan r.marketCap, blankToNan r.sector⟩

/-- The cleaned frame together with the counters _clean_data computes and
logs (lines 701-731): initial count, excluded-by-list, excluded-by-pattern,
final count. -/
structure CleanOut where
  rows : List MRow
  initial : Nat
  excludedSpecific : Nat
  excludedPattern : Nat
  final : Nat
deriving DecidableEq

/-- DataProcessor._clean_data (lines 699-733): the two exclusion stages with
their observable counters, the count-preserving date normalization of line
719, and the blank-to-NaN replacement of line 722. -/
def clean_data (df : List MRow) : CleanOut :=
  let initial := df.length
  let df1 := specificStage df
  let excludedSpecific := initial - df1.length
  let df2 := patternStage df1
  let excludedPattern := (initial - excludedSpecific) - df2.length
  let df3 := df2.map mrowReplaceBlanks
  ⟨df3, initial, excludedSpecific, excludedPattern, df3.length⟩

/-- DataProcessor.merge_data (lines 670-697): select Symbol and P/E from the
quotes frame and left-join onto the report rows, then select Symbol, Market
cap and Sector from the directory frame and left-join again, then clean.
A missing column raises KeyError, which merge_data re-raises (line 697). -/
def merge_data (dfCalyx : List CRow) (dfTV : TVFrame) (dfNgx : NgxFrame) :
    Except String CleanOut :=
  match selectCols ["Symbol", "P/E"] dfTV.cols dfTV.rows with
  | .error e => .error e
  | .ok tvRows =>
    let m1 := leftJoin CRow.symbol TVRow.symbol
      (fun l r => M1Row.mk l (match r with | some x => x.pe | none => .nan)) dfCalyx tvRows
    match selectCols ["Symbol", "Market cap", "Sector"] dfNgx.cols dfNgx.rows with
    | .error e => .error e
    | .ok ngxRows =>
      let m2 := leftJoin (fun x : M1Row => x.base.symbol) NgxRow.symbol
        (fun l r => MRow.mk l.base l.pe
          (match r with | some x => x.marketCap | none => .nan)
          (match r with | some x => x.sector | none => .nan)) m1 ngxRows
      .ok (clean_data m2)

/-! ## NGNMarketDataFetcher.fetch_all_companies (lines 495-598) -/

/-- One company record from the directory API, with the fields the pipeline
later consumes. -/
structure NgnCompany where
  id : Nat
  symbol : Option String
  marketCap : Cell
  sector : Cell
deriving DecidableEq

/-- One decoded page body: the data array plus the hasNext pagination flag. -/
structure NgnPage where
  data : List NgnCompany
  hasNext : Bool
deriving DecidableEq

/-- Outcome of one page request (lines 512-525): a decoded body, a transport
error, or a JSON decode error. -/
inductive NgnPageResult
  | ok (p : NgnPage)
  | httpError
  | jsonError
deriving DecidableEq

/-- The while-True pagination loop of fetch_all_companies (lines 504-543),
with explicit fuel standing in for the unbounded loop. Returns the
accumulated records and the page numbers actually requested, in order.
A failed request breaks out keeping the records accumulated so far; an empty
page breaks; a page with hasNext absent or false breaks after accumulating. -/
def ngnFetchLoop (server : Nat → NgnPageResult) :
    Nat → Nat → List NgnCompany → List Nat → List NgnCompany × List Nat
  | 0, _, acc, reqs => (acc, reqs)
  | fuel + 1, page, acc, reqs =>
    match server page with
    | .httpError => (acc, reqs ++ [page])
    | .jsonError => (acc, reqs ++ [page])
    | .ok p =>
      if p.data.isEmpty then (acc, reqs ++ [page])
      else if !p.hasNext then (acc ++ p.data, reqs ++ [page])
      else ngnFetchLoop server fuel (page + 1) (acc ++ p.data) (reqs ++ [page])

/-- The pagination loop started at page 1 with nothing accumulated. -/
def ngn_fetch_all (server : Nat → NgnPageResult) (fuel : Nat) :
    List NgnCompany × List Nat :=
  ngnFetchLoop server fuel 1 [] []

/-- Columns carried by a nonempty processed directory frame after the renames
of _process_ngn_data (lines 589-596): at least the three merge keys. -/
def ngxColumnNames : List String :=
  ["Symbol", "Market cap", "Sector", "price", "prevClose", "volume"]

/-- The projection _process_ngn_data applies to each record. -/
def ngnCompanyToRow (c : NgnCompany) : NgxRow := ⟨c.symbol, c.marketCap, c.sector⟩

/-- NGNMarketDataFetcher.fetch_all_companies (lines 495-555): zero records
produce the bare pd.DataFrame() with no columns at all (line 547), otherwise
_process_ngn_data yields a frame carrying the renamed columns. -/
def fetch_all_companies (server : Nat → NgnPageResult) (fuel : Nat) : NgxFrame :=
  let r := ngn_fetch_all server fuel
  if r.1.isEmpty then ⟨[], []⟩
  else ⟨ngxColumnNames, r.1.map ngnCompanyToRow⟩

/-! ## TradingViewDataFetcher.fetch_data (lines 346-468) -/

/-- One entry of a rawValues array: a ticker object with name and
description, a primitive value, or JSON null (Python None). -/
inductive TVRaw
  | obj (name : String) (description : String)
  | prim (c : Cell)
  | null
deriving DecidableEq

/-- One element of the response data array: its id and its rawValues. -/
structure TVItem where
  id : Option String
  rawValues : List TVRaw
deriving DecidableEq

/-- The dict comprehension of line 395 keyed on item id; on duplicate keys
the last binding wins, and lookup of a missing key yields None. -/
def dictGet (items : List TVItem) (k : String) : Option (List TVRaw) :=
  items.foldl (fun acc it => if it.id == some k then some it.rawValues else acc) none

/-- safe_get of line 420: index into a list, None when out of range. -/
def safeGet (l : List TVRaw) (i : Nat) : Option TVRaw := l.get? i

/-- Python str() of a rawValues entry, for the non-dict ticker fallback of
line 429. -/
def tvRawStr : TVRaw → String
  | .obj n _ => n
  | .prim (.str s) => String.mk s
  | .prim (.num d) => String.mk d.render
  | .prim .nan => "nan"
  | .null => "None"

/-- One parsed quote row (the dict built at lines 432-445 or 454-466). -/
structure TVQuoteRow where
  symbol : Option String
  description : String
  price : Option TVRaw
  changePercent : Option TVRaw
  volume : Option TVRaw
  relVolume : Option TVRaw
  marketCap : Option TVRaw
  pe : Option TVRaw
  epsDiluted : Option TVRaw
  epsGrowth : Option TVRaw
  divYield : Option TVRaw
  sector : Option TVRaw
deriving DecidableEq

/-- The expected_keys of lines 397-409. -/
def tvExpectedKeys : List String :=
  ["TickerUniversal", "Price", "Change", "Volume", "RelativeVolume", "MarketCap",
   "PriceToEarnings", "EpsDiluted", "EpsDilutedGrowth", "DividendsYield", "Sector"]

/-- _parse_tradingview_data (lines 392-468): when a nonempty TickerUniversal
array is present, build one row per index up to the longest array; otherwise
fall back to one row per response item. -/
def parse_tradingview_data (items : List TVItem) : List TVQuoteRow :=
  let arr := fun k => (dictGet items k).getD []
  match dictGet items "TickerUniversal" with
  | some (t0 :: trest) =>
    let n := (tvExpectedKeys.map (fun k => (arr k).length)).foldl max 0
    (List.range n).map (fun i =>
      let tinfo := safeGet (t0 :: trest) i
      let sd : String × String :=
        match tinfo with
        | some (.obj nm ds) => (nm, ds)
        | some .null => ("", "")
        | some x => (tvRawStr x, "")
        | none => ("", "")
      ⟨some sd.1, sd.2, safeGet (arr "Price") i, safeGet (arr "Change") i,
       safeGet (arr "Volume") i, safeGet (arr "RelativeVolume") i,
       safeGet (arr "MarketCap") i, safeGet (arr "PriceToEarnings") i,
       safeGet (arr "EpsDiluted") i, safeGet (arr "EpsDilutedGrowth") i,
       safeGet (arr "DividendsYield") i, safeGet (arr "Sector") i⟩)
  | _ =>
    items.map (fun it =>
      ⟨it.id, "", safeGet it.rawValues 0, safeGet it.rawValues 1,
       safeGet it.rawValues 2, safeGet it.rawValues 3, safeGet it.rawValues 4,
       safeGet it.rawValues 5, safeGet it.rawValues 6, safeGet it.rawValues 7,
       safeGet it.rawValues 8, safeGet it.rawValues 9⟩)

/-- The parsed rows together with the number of HTTP requests issued. -/
structure TVFetchOut where
  rows : List TVQuoteRow
  requests : Nat
deriving DecidableEq

/-- TradingViewDataFetcher.fetch_data (lines 353-390): one POST request with
a fixed range of 0 to 200 and no page loop; the single response is parsed
and returned, so exactly one request is ever issued. -/
def tradingview_fetch_data (response : List TVItem) : TVFetchOut :=
  ⟨parse_tradingview_data response, 1⟩

/-- Columns of a nonempty parsed quotes frame (the dict keys of lines
432-445). -/
def tvColumnNames : List String :=
  ["Symbol", "Description", "Price", "Change %", "Volume", "Rel Volume",
   "Market cap", "P/E", "EPS dil TTM", "EPS dil growth TTM YoY",
   "Div yield % TTM", "Sector"]

/-- The P/E entry of a quote row as a merge-level cell. -/
def tvRawToCell : Option TVRaw → Cell
  | some (.prim c) => c
  | _ => .nan

/-- The merge-level view of one parsed quote row. -/
def tvQuoteToRow (q : TVQuoteRow) : TVRow := ⟨q.symbol, tvRawToCell q.pe⟩

/-- The DataFrame built from parsed quote rows: an empty row list yields a
frame with no columns, like pd.DataFrame of an empty list. -/
def tvFrameOfRows (rs : List TVQuoteRow) : TVFrame :=
  if rs.isEmpty then ⟨[], []⟩ else ⟨tvColumnNames, rs.map tvQuoteToRow⟩

/-! ## CalyxReportDownloader.download_report (lines 117-175) -/

/-- CalyxReportDownloader._check_if_pdf_exists (lines 167-175): the directory
listing (none when the directory is missing or listing raises) filtered to
names whose lowercased form ends in .pdf; true when any remain. -/
def check_if_pdf_exists (dir : Option (List (List Char))) : Bool :=
  match dir with
  | none => false
  | some files =>
    0 < (files.filter (fun f => List.isSuffixOf ['.', 'p', 'd', 'f'] (pyLower f))).length

/-- A PDF artifact is present in the download directory. -/
def PdfPresent (dir : Option (List (List Char))) : Prop :=
  ∃ files, dir = some files ∧
    ∃ f ∈ files, List.isSuffixOf ['.', 'p', 'd', 'f'] (pyLower f) = true

/-- CalyxReportDownloader.download_report (lines 117-165): True when the
session steps complete; when any step raises, the except block of lines
147-156 returns True exactly when a PDF is already present in the download
directory, and False otherwise. -/
def download_report (stepsRaise : Bool) (dir : Option (List (List Char))) : Bool :=
  if stepsRaise then check_if_pdf_exists dir else true

/-! ## DatabaseManager (lines 736-819) and upload_market_stats (821-863) -/

/-- The duplicate-key classification of lines 788 and 813: the lowercased
message contains duplicate or integrity, or the message contains 1062. -/
def isDupError (msg : String) : Bool :=
  pyContains (pyLower msg.toList) ['d', 'u', 'p', 'l', 'i', 'c', 'a', 't', 'e'] ||
  pyContains (pyLower msg.toList) ['i', 'n', 't', 'e', 'g', 'r', 'i', 't', 'y'] ||
  pyContains msg.toList ['1', '0', '6', '2']

/-- Outcome of the bulk to_sql append (line 781). -/
inductive BulkOutcome
  | ok
  | fails (msg : String)
deriving DecidableEq

/-- One iteration of the row loop of _upload_with_duplicate_skip (lines
806-817): a successful insert (none) counts as uploaded, an exception counts
as skipped when duplicate-classified and as a hard error otherwise. -/
def uploadStep (acc : Nat × Nat × Nat) (out : Option String) : Nat × Nat × Nat :=
  match out with
  | none => (acc.1 + 1, acc.2.1, acc.2.2)
  | some msg =>
    if isDupError msg then (acc.1, acc.2.1 + 1, acc.2.2)
    else (acc.1, acc.2.1, acc.2.2 + 1)

/-- DatabaseManager._upload_with_duplicate_skip (lines 800-819): row-by-row
insert counting uploaded, duplicate-skipped and hard-errored rows; each row
outcome is success (none) or an exception message. -/
def upload_with_duplicate_skip (rows : List (Option String)) : Nat × Nat × Nat :=
  rows.foldl uploadStep (0, 0, 0)

/-- What upload_data reports. -/
inductive UploadResult
  | bulkSuccess
  | rowByRow (uploaded skipped errors : Nat)
  | loggedFailure
deriving DecidableEq

/-- DatabaseManager.upload_data (lines 771-798): bulk append first; a
duplicate-classified failure falls back to the row-by-row path; any other
failure is re-raised (line 793) into the outer except (lines 795-798), which
logs and continues, so the function never propagates an exception. -/
def upload_data (bulk : BulkOutcome) (rows : List (Option String)) :
    Except String UploadResult :=
  match bulk with
  | .ok => .ok .bulkSuccess
  | .fails msg =>
    if isDupError msg then
      let c := upload_with_duplicate_skip rows
      .ok (.rowByRow c.1 c.2.1 c.2.2)
    else .ok .loggedFailure

/-- The names bound in the class body of DatabaseManager (lines 736-819).
The function upload_market_stats of line 821 is defined at column 0, at
module level, hence outside this class body. -/
def databaseManagerMethods : List String :=
  ["__init__", "connect", "upload_data", "_upload_with_duplicate_skip"]

/-- The body of the module-level upload_market_stats (lines 821-863) as
written: intersect the frame columns with the destination table columns,
bulk-append the filtered frame, skip duplicate-classified errors, re-raise
others (line 859) into the outer except of lines 861-863 which logs and
continues; the body itself never propagates an error. -/
def upload_market_stats (tableCols dfCols : List String) (bulk : BulkOutcome) :
    Except String Unit :=
  let colsToUse := dfCols.filter (fun c => tableCols.contains c)
  let inner : Except String Unit :=
    if colsToUse.isEmpty then .ok ()
    else
      match bulk with
      | .ok => .ok ()
      | .fails msg => if isDupError msg then .ok () else .error msg
  match inner with
  | .ok _ => .ok ()
  | .error _ => .ok ()

/-! ## FinancialDataAutomation.run_full_pipeline (lines 865-931) -/

/-- The external outcomes one pipeline run observes: the download step, the
PDF search, and each fetch or upload result. Except values model steps whose
Python code raises. -/
structure World where
  downloadStepsRaise : Bool
  downloadDir : Option (List (List Char))
  pdfFound : Bool
  extractResult : Except String (List CRow)
  tvResult : Except String TVFrame
  ngnResult : Except String NgxFrame
  statsResult : Except String Unit
  bulk : BulkOutcome
  rowOutcomes : List (Option String)

/-- FinancialDataAutomation.run_full_pipeline (lines 881-931), returning the
boolean result together with whether the cleanup step ran. Any exception
reaching the top-level try is caught at lines 928-931 and yields False with
no cleanup. Step 6 (line 920) invokes self.db_manager.upload_market_stats:
attribute lookup on the DatabaseManager instance consults the names bound in
the class body, and a missing attribute raises AttributeError. -/
def run_full_pipeline (downloadFlag uploadToDb : Bool) (w : World) : Bool × Bool :=
  let _dl := if downloadFlag then download_report w.downloadStepsRaise w.downloadDir else true
  if !w.pdfFound then (false, false)
  else
    match w.extractResult with
    | .error _ => (false, false)
    | .ok dfCalyx =>
      match w.tvResult with
      | .error _ => (false, false)
      | .ok dfTV =>
        match w.ngnResult with
        | .error _ => (false, false)
        | .ok dfNgx =>
          match merge_data dfCalyx dfTV dfNgx with
          | .error _ => (false, false)
          | .ok _dfFinal =>
            match w.statsResult with
            | .error _ => (false, false)
            | .ok _ =>
              if uploadToDb then
                let _up := upload_data w.bulk w.rowOutcomes
                if databaseManagerMethods.contains "upload_market_stats" then
                  (true, true)
                else (false, false)
              else (true, true)

/-! ## Concrete instances used by the claim theorems -/

/-- A one-row report frame for a plain equity ticker. -/
def okCalyxRows : List CRow := [⟨some "DANGCEM", []⟩]

/-- A matching one-row quotes frame (all merge columns present). -/
def okTVFrame : TVFrame := ⟨tvColumnNames, [⟨some "DANGCEM", Cell.nan⟩]⟩

/-- A matching one-row directory frame (all merge columns present). -/
def okNgxFrame : NgxFrame := ⟨ngxColumnNames, [⟨some "DANGCEM", Cell.nan, Cell.nan⟩]⟩

/-- A fully successful run with persistence enabled: PDF present, every
fetch succeeds, bulk upload succeeds. -/
def c1World : World :=
  ⟨false, some [], true, .ok okCalyxRows, .ok okTVFrame, .ok okNgxFrame,
   .ok (), BulkOutcome.ok, []⟩

/-- A directory server whose first page decodes fine but holds no records. -/
def c3Server : Nat → NgnPageResult := fun _ => .ok ⟨[], false⟩

/-- A run identical to c1World except that the directory fetch comes back
empty (and persistence is not even requested). -/
def c3World : World :=
  ⟨false, some [], true, .ok okCalyxRows, .ok okTVFrame,
   .ok (fetch_all_companies c3Server 5), .ok (), BulkOutcome.ok, []⟩

/-- A one-row left spine. -/
def c2Spine : List CRow := [⟨some "AB", []⟩]

/-- A quotes frame holding two rows for the same symbol. -/
def c2DupTV : TVFrame := ⟨tvColumnNames, [⟨some "AB", Cell.nan⟩, ⟨some "AB", Cell.num ⟨5, 0⟩⟩]⟩

/-- A directory frame matching nothing in the spine. -/
def c2Ngx : NgxFrame := ⟨ngxColumnNames, [⟨some "ZZ", Cell.nan, Cell.nan⟩]⟩

/-- The clean result of merging okCalyxRows with okTVFrame and okNgxFrame. -/
def c2wRes : CleanOut :=
  ⟨[⟨⟨some "DANGCEM", []⟩, Cell.nan, Cell.nan, Cell.nan⟩], 1, 0, 0, 1⟩

/-- A merged row whose symbol is VETBANK. -/
def vetbankRow : MRow := ⟨⟨some "VETBANK", []⟩, Cell.nan, Cell.nan, Cell.nan⟩

/-- The first page served by the quotes feed of the pagination scenario:
100 records, none of them a TickerUniversal array. -/
def c5Page1 : List TVItem := (List.range 100).map (fun i => ⟨some (toString i), []⟩)

/-- One directory record. -/
def c5Company : NgnCompany := ⟨0, some "A", Cell.nan, Cell.nan⟩

/-- The paginated feed of the scenario: two pages of 100 with hasNext set,
then a terminal page of 40. -/
def c5Feed : Nat → NgnPageResult := fun page =>
  if page = 1 then .ok ⟨List.replicate 100 c5Company, true⟩
  else if page = 2 then .ok ⟨List.replicate 100 c5Company, true⟩
  else if page = 3 then .ok ⟨List.replicate 40 c5Company, false⟩
  else .ok ⟨[], false⟩

/-- Thirteen whitespace-free cell texts with a numeric leading token. -/
def c7Cells : List (List Char) :=
  [['1'], ['A', 'G', 'C'], ['2'], ['2'], ['2'], ['2'], ['2'], ['0'], ['0'],
   ['3'], ['4'], ['5'], ['2']]

/-- A 13-cell row whose second (symbol) cell is the empty string; the
acceptance heuristic only inspects the first cell. -/
def c10BadRow : List (Option (List Char)) :=
  [some ['1'], some [], some ['2'], some ['2'], some ['2'], some ['2'], some ['2'],
   some ['0'], some ['0'], some ['3'], some ['4'], some ['5'], some ['2']]

/-- A minimal accepted row. -/
def c10GoodRow : List (Option (List Char)) := [some ['1']]

/-- A download directory listing holding one PDF. -/
def c6Dir : Option (List (List Char)) := some [['a', '.', 'p', 'd', 'f']]

/-! ## Helper lemmas -/

/-- The three row counters sum to the accumulator total plus the row count. -/
theorem upload_counts_aux (rows : List (Option String)) :
    ∀ acc : Nat × Nat × Nat,
      (rows.foldl uploadStep acc).1 + (rows.foldl uploadStep acc).2.1 +
        (rows.foldl uploadStep acc).2.2
      = acc.1 + acc.2.1 + acc.2.2 + rows.length := by
  induction rows with
  | nil => intro acc; simp
  | cons o rows ih =>
    intro acc
    have hstep : (uploadStep acc o).1 + (uploadStep acc o).2.1 + (uploadStep acc o).2.2
        = acc.1 + acc.2.1 + acc.2.2 + 1 := by
      cases o with
      | none => simp [uploadStep]; omega
      | some msg =>
        simp only [uploadStep]
        split <;> simp <;> omega
    simp only [List.foldl_cons, List.length_cons]
    rw [ih (uploadStep acc o), hstep]
    omega

/-- A PDF is detected exactly when the listing holds a name with the
lowercased .pdf suffix. -/
theorem check_if_pdf_exists_iff (dir : Option (List (List Char))) :
    check_if_pdf_exists dir = true ↔ PdfPresent dir := by
  cases dir with
  | none =>
    simp only [check_if_pdf_exists, PdfPresent]
    constructor
    · intro h; cases h
    · rintro ⟨files, h, -⟩; cases h
  | some files =>
    simp only [check_if_pdf_exists, PdfPresent]
    constructor
    · intro h
      have hne : files.filter (fun f => List.isSuffixOf ['.', 'p', 'd', 'f'] (pyLower f)) ≠ [] := by
        intro hnil
        rw [hnil] at h
        simp at h
      rcases List.exists_mem_of_ne_nil _ hne with ⟨f, hf⟩
      rcases List.mem_filter.mp hf with ⟨hmem, hsuf⟩
      exact ⟨files, rfl, f, hmem, hsuf⟩
    · rintro ⟨files2, heq, f, hmem, hsuf⟩
      obtain rfl : files2 = files := (Option.some.inj heq).symm
      have : f ∈ files2.filter (fun f => List.isSuffixOf ['.', 'p', 'd', 'f'] (pyLower f)) :=
        List.mem_filter.mpr ⟨hmem, hsuf⟩
      have hne := List.ne_nil_of_mem this
      have := List.length_pos.mpr hne
      simpa using this

/-! ## Claim theorems -/

/-- C1: persistence enabled, every earlier step succeeding, the market
snapshot upsert step (line 920) aborts the whole run. The function
upload_market_stats is not among the names bound in the class body of
DatabaseManager, so the attribute lookup raises and the run returns False
with no cleanup, although the function body itself (conjunct four) swallows
every error as the spec describes. With persistence disabled the same world
completes successfully. -/
theorem c1_market_stats_step_aborts_run :
    databaseManagerMethods.contains "upload_market_stats" = false
    ∧ run_full_pipeline true true c1World = (false, false)
    ∧ run_full_pipeline true false c1World = (true, true)
    ∧ ∀ tableCols dfCols : List String, ∀ bulk : BulkOutcome,
        upload_market_stats tableCols dfCols bulk = .ok () := by
  refine ⟨by decide, by decide, by decide, ?_⟩
  intro tableCols dfCols bulk
  simp only [upload_market_stats]
  split <;> rfl

/-- C3: a paginated directory fetch that yields zero records returns the
bare columnless frame (line 547); merge_data then raises KeyError selecting
the Symbol, Market cap and Sector columns, and the run fails instead of
degrading to all-null right-hand columns. -/
theorem c3_empty_fetch_breaks_merge :
    ngn_fetch_all c3Server 5 = ([], [1])
    ∧ fetch_all_companies c3Server 5 = ⟨[], []⟩
    ∧ merge_data okCalyxRows okTVFrame (fetch_all_companies c3Server 5) = .error "KeyError"
    ∧ run_full_pipeline true false c3World = (false, false) := by
  exact ⟨by decide, by decide, by rfl, by decide⟩

/-- C5 counterexample: against the pagination scenario the quotes fetcher
issues exactly one request and yields only the 100 records of that single
response, not 240; it has no page loop at all. -/
theorem c5_quotes_fetcher_single_request :
    (tradingview_fetch_data c5Page1).requests = 1
    ∧ (tradingview_fetch_data c5Page1).rows.length = 100
    ∧ ¬((tradingview_fetch_data c5Page1).rows.length = 240) := by
  refine ⟨rfl, by decide, by decide⟩

set_option maxRecDepth 8000 in
/-- C5 amended: the quotes fetcher always issues exactly one request; the
pagination scenario (two pages of 100 with hasNext, then a terminal 40)
belongs to the directory fetcher, which accumulates exactly 240 records over
exactly the three requests for pages 1, 2 and 3 and then stops. -/
theorem c5_pagination_amended :
    (∀ response : List TVItem, (tradingview_fetch_data response).requests = 1)
    ∧ (ngn_fetch_all c5Feed 10).1.length = 240
    ∧ (ngn_fetch_all c5Feed 10).2 = [1, 2, 3] :=
  ⟨fun _ => rfl, by decide, by decide⟩

/-- C9: upload_data never propagates an exception for any bulk outcome; the
row-by-row counters always sum to the input record count; and a
duplicate-classified bulk failure takes the row-by-row fallback. -/
theorem c9_duplicate_tolerant_upload (bulk : BulkOutcome) (rows : List (Option String)) :
    (upload_data bulk rows).isOk = true
    ∧ (upload_with_duplicate_skip rows).1 + (upload_with_duplicate_skip rows).2.1
        + (upload_with_duplicate_skip rows).2.2 = rows.length
    ∧ upload_data (BulkOutcome.fails "Duplicate entry 1062") rows
        = .ok (.rowByRow (upload_with_duplicate_skip rows).1
            (upload_with_duplicate_skip rows).2.1 (upload_with_duplicate_skip rows).2.2) := by
  refine ⟨?_, ?_, ?_⟩
  · cases bulk with
    | ok => rfl
    | fails msg =>
      simp only [upload_data]
      split <;> rfl
  · have := upload_counts_aux rows (0, 0, 0)
    simpa [upload_with_duplicate_skip] using this
  · have hd : isDupError "Duplicate entry 1062" = true := by decide
    simp [upload_data, hd, upload_with_duplicate_skip]

/-- C4 counterexample: the pattern-based exclusion step does not reject
VETBANK: the regex finds no match in it and the pattern stage keeps the
row (VETBANK is removed by the explicit exclusion list instead). -/
theorem c4_vetbank_not_pattern_matched :
    symbolMatchesPattern (some "VETBANK") = false
    ∧ patternStage [vetbankRow] = [vetbankRow] := by decide

/-- C2 counterexample: with a duplicated symbol in the quotes rows the
merged output holds 2 rows against a 1-row left spine, so the output row
count exceeds the spine row count. -/
theorem c2_spine_bound_counterexample :
    (merge_data c2Spine c2DupTV c2Ngx).map CleanOut.final = .ok 2
    ∧ c2Spine.length = 1
    ∧ ¬(2 ≤ c2Spine.length) := by
  exact ⟨by rfl, by rfl, by decide⟩

/-- C10 counterexample: a 13-cell row whose symbol cell is the empty string
is accepted verbatim (only the leading cell is inspected), so the extractor
output contains a ReportRow with an empty symbol. -/
theorem c10_empty_symbol_counterexample :
    (extract_nge_data [some [c10BadRow]] ['d']).map ReportRow.symbol = [some []] := by decide

/-- symEq is equality of the optional key: two missing keys match, two
present keys match exactly when the strings are equal. -/
theorem symEq_iff (k o : Option String) : symEq k o = true ↔ o = k := by
  cases k with
  | none =>
    cases o with
    | none => simp [symEq]
    | some b => simp [symEq]
  | some a =>
    cases o with
    | none => simp [symEq]
    | some b =>
      show (a == b) = true ↔ some b = some a
      rw [beq_iff_eq]
      exact ⟨fun h => by rw [h], fun h => (Option.some.inj h).symm⟩

/-- Column selection only succeeds with the rows unchanged. -/
theorem selectCols_ok_eq {ρ : Type} {need cols : List String} {rows out : List ρ}
    (h : selectCols need cols rows = .ok out) : out = rows := by
  unfold selectCols at h
  split at h
  · exact (Except.ok.inj h).symm
  · cases h

/-- When the key column of the right rows is duplicate-free (missing keys
counted like any other key, since pandas matches them with each other), at
most one right row matches any given key. -/
theorem filter_symEq_le_one {β : Type} (rk : β → Option String) :
    ∀ rs : List β, (rs.map rk).Nodup →
      ∀ key : Option String, (rs.filter (fun r => symEq key (rk r))).length ≤ 1 := by
  intro rs
  induction rs with
  | nil =>
    intro _ _
    simp
  | cons r rs ih =>
    intro hnd key
    have hnd1 : (rk r :: rs.map rk).Nodup := by
      rw [List.map_cons] at hnd
      exact hnd
    have hkr : rk r ∉ rs.map rk := (List.nodup_cons.mp hnd1).1
    have hnd2 : (rs.map rk).Nodup := (List.nodup_cons.mp hnd1).2
    cases hs : symEq key (rk r) with
    | false =>
      simp only [List.filter_cons, hs, Bool.false_eq_true, if_false]
      exact ih hnd2 key
    | true =>
      have hkey : rk r = key := (symEq_iff key (rk r)).mp hs
      have hrest : rs.filter (fun r2 => symEq key (rk r2)) = [] := by
        apply List.filter_eq_nil_iff.mpr
        intro r2 hr2 hmatch
        have h2 : rk r2 = key := (symEq_iff key (rk r2)).mp hmatch
        refine hkr ?_
        rw [hkey, ← h2]
        exact List.mem_map_of_mem rk hr2
      simp [List.filter_cons, hs, hrest]

/-- A left join against a right table with pairwise-distinct keys (missing
keys included) never exceeds the left row count. -/
theorem leftJoin_length_le {α β γ : Type} (lk : α → Option String) (rk : β → Option String)
    (mk2 : α → Option β → γ) (rs : List β) (hnd : (rs.map rk).Nodup) :
    ∀ ls : List α, (leftJoin lk rk mk2 ls rs).length ≤ ls.length := by
  intro ls
  induction ls with
  | nil => simp [leftJoin]
  | cons l ls ih =>
    have hcontrib :
        (if (rs.filter (fun r => symEq (lk l) (rk r))).isEmpty
         then [mk2 l none]
         else (rs.filter (fun r => symEq (lk l) (rk r))).map (fun r => mk2 l (some r))).length
          ≤ 1 := by
      cases he : (rs.filter (fun r => symEq (lk l) (rk r))).isEmpty with
      | true => simp
      | false =>
        simp only [Bool.false_eq_true, if_false, List.length_map]
        exact filter_symEq_le_one rk rs hnd (lk l)
    simp only [leftJoin, List.flatMap_cons, List.length_append, List.length_cons] at *
    omega

/-- The counter identity and count monotonicity of _clean_data. -/
theorem clean_data_counts (df : List MRow) :
    (clean_data df).final = (clean_data df).initial - (clean_data df).excludedSpecific
        - (clean_data df).excludedPattern
    ∧ (clean_data df).rows.length = (clean_data df).final
    ∧ (clean_data df).final ≤ df.length := by
  have h1 : (specificStage df).length ≤ df.length := List.length_filter_le _ _
  have h2 : (patternStage (specificStage df)).length ≤ (specificStage df).length :=
    List.length_filter_le _ _
  simp only [clean_data, List.length_map]
  refine ⟨by omega, by simp, by omega⟩

/-- C6: when a session step raises, the downloader still reports success
exactly when a PDF artifact is present in the download directory; it reports
failure precisely when a step raised and no artifact is present. -/
theorem c6_artifact_overrides_failure (stepsRaise : Bool) (dir : Option (List (List Char))) :
    (stepsRaise = true → PdfPresent dir → download_report stepsRaise dir = true)
    ∧ (download_report stepsRaise dir = false ↔ stepsRaise = true ∧ ¬PdfPresent dir) := by
  cases stepsRaise with
  | false =>
    refine ⟨?_, ?_⟩
    · intro h; cases h
    · simp [download_report]
  | true =>
    refine ⟨?_, ?_⟩
    · intro _ hp
      have hc := (check_if_pdf_exists_iff dir).mpr hp
      show check_if_pdf_exists dir = true
      exact hc
    · constructor
      · intro h
        refine ⟨rfl, fun hp => ?_⟩
        have hc := (check_if_pdf_exists_iff dir).mpr hp
        have h2 : check_if_pdf_exists dir = false := h
        rw [hc] at h2
        cases h2
      · rintro ⟨-, hnp⟩
        show check_if_pdf_exists dir = false
        cases hc : check_if_pdf_exists dir with
        | true => exact absurd ((check_if_pdf_exists_iff dir).mp hc) hnp
        | false => rfl

/-- C6 witness: with a failing session step, a directory holding a PDF gives
success and a missing directory gives failure. -/
theorem c6_artifact_overrides_failure_witness :
    download_report true c6Dir = true ∧ download_report true none = false := by
  constructor
  · exact (c6_artifact_overrides_failure true c6Dir).1 rfl
      ⟨[['a', '.', 'p', 'd', 'f']], rfl, ['a', '.', 'p', 'd', 'f'], by decide, by decide⟩
  · exact (c6_artifact_overrides_failure true none).2.mpr
      ⟨rfl, by rintro ⟨files, h, -⟩; cases h⟩

/-- C2 amended: whenever the merge succeeds and each right-hand source has
pairwise-distinct merge keys (at most one row per symbol and at most one row
with a missing symbol, since pandas matches missing keys with each other),
the cleaned output satisfies the exact counter identity, the final counter
equals the output row count, and the output row count never exceeds the left
spine; the counters are the fields _clean_data computes and logs. -/
theorem c2_counts_and_spine_bound (dfCalyx : List CRow) (dfTV : TVFrame) (dfNgx : NgxFrame)
    (res : CleanOut)
    (hok : merge_data dfCalyx dfTV dfNgx = .ok res)
    (htv : (dfTV.rows.map TVRow.symbol).Nodup)
    (hngx : (dfNgx.rows.map NgxRow.symbol).Nodup) :
    res.final = res.initial - res.excludedSpecific - res.excludedPattern
    ∧ res.rows.length = res.final
    ∧ res.final ≤ dfCalyx.length := by
  unfold merge_data at hok
  split at hok
  · cases hok
  · rename_i tvRows hsel1
    split at hok
    · cases hok
    · rename_i ngxRows hsel2
      obtain rfl : tvRows = dfTV.rows := selectCols_ok_eq hsel1
      obtain rfl : ngxRows = dfNgx.rows := selectCols_ok_eq hsel2
      obtain rfl : res = _ := (Except.ok.inj hok).symm
      have hm1 := leftJoin_length_le CRow.symbol TVRow.symbol
        (fun l r => M1Row.mk l (match r with | some x => x.pe | none => .nan))
        dfTV.rows htv dfCalyx
      have hm2 := leftJoin_length_le (fun x : M1Row => x.base.symbol) NgxRow.symbol
        (fun l r => MRow.mk l.base l.pe
          (match r with | some x => x.marketCap | none => .nan)
          (match r with | some x => x.sector | none => .nan))
        dfNgx.rows hngx
        (leftJoin CRow.symbol TVRow.symbol
          (fun l r => M1Row.mk l (match r with | some x => x.pe | none => .nan))
          dfCalyx dfTV.rows)
      have hc := clean_data_counts (leftJoin (fun x : M1Row => x.base.symbol) NgxRow.symbol
        (fun l r => MRow.mk l.base l.pe
          (match r with | some x => x.marketCap | none => .nan)
          (match r with | some x => x.sector | none => .nan))
        (leftJoin CRow.symbol TVRow.symbol
          (fun l r => M1Row.mk l (match r with | some x => x.pe | none => .nan))
          dfCalyx dfTV.rows)
        dfNgx.rows)
      refine ⟨hc.1, hc.2.1, ?_⟩
      have := hc.2.2
      omega

/-- C2 witness: the amended statement evaluated on concrete one-row frames. -/
theorem c2_counts_and_spine_bound_witness :
    c2wRes.final = c2wRes.initial - c2wRes.excludedSpecific - c2wRes.excludedPattern
    ∧ c2wRes.rows.length = c2wRes.final
    ∧ c2wRes.final ≤ okCalyxRows.length :=
  c2_counts_and_spine_bound okCalyxRows okTVFrame okNgxFrame c2wRes (by rfl) (by decide) (by decide)

/-- A case-insensitive literal matches at some position exactly when it is a
substring of the uppercased haystack. -/
theorem ciMatchAt_drop_iff (p cs : List Char) :
    (∃ i, i < cs.length + 1 ∧ ciMatchAt p (cs.drop i) = true)
      ↔ ∃ l r, cs.map Char.toUpper = l ++ p ++ r := by
  constructor
  · rintro ⟨i, -, hm⟩
    unfold ciMatchAt at hm
    rw [Bool.and_eq_true] at hm
    obtain ⟨hlen, heq⟩ := hm
    rw [beq_iff_eq] at heq
    refine ⟨(cs.take i).map Char.toUpper, ((cs.drop i).drop p.length).map Char.toUpper, ?_⟩
    calc cs.map Char.toUpper
        = (cs.take i ++ cs.drop i).map Char.toUpper := by rw [List.take_append_drop]
      _ = (cs.take i).map Char.toUpper ++ (cs.drop i).map Char.toUpper := by
          rw [List.map_append]
      _ = (cs.take i).map Char.toUpper ++
            ((cs.drop i).take p.length ++ (cs.drop i).drop p.length).map Char.toUpper := by
          rw [List.take_append_drop]
      _ = (cs.take i).map Char.toUpper ++
            (((cs.drop i).take p.length).map Char.toUpper ++
              ((cs.drop i).drop p.length).map Char.toUpper) := by
          rw [List.map_append]
      _ = (cs.take i).map Char.toUpper ++ (p ++ ((cs.drop i).drop p.length).map Char.toUpper) := by
          rw [heq]
      _ = (cs.take i).map Char.toUpper ++ p ++ ((cs.drop i).drop p.length).map Char.toUpper := by
          rw [List.append_assoc]
  · rintro ⟨l, r, hd⟩
    have hlen : cs.length = l.length + p.length + r.length := by
      have h0 := congrArg List.length hd
      simp [List.length_append, List.length_map] at h0
      omega
    refine ⟨l.length, by omega, ?_⟩
    unfold ciMatchAt
    rw [Bool.and_eq_true, beq_iff_eq]
    refine ⟨by rw [decide_eq_true_eq, List.length_drop]; omega, ?_⟩
    have h1 : ((cs.drop l.length).take p.length).map Char.toUpper
        = ((cs.map Char.toUpper).drop l.length).take p.length := by
      rw [List.map_take, List.map_drop]
    rw [h1, hd, List.append_assoc, List.drop_left, List.take_left]

/-- The positional regex search succeeds exactly when the specification-level
substring description holds. -/
theorem reSearchExcl_iff (s : String) :
    reSearchExcl s.toList = true ↔ SpecExcluded s := by
  unfold reSearchExcl SpecExcluded
  rw [List.any_eq_true]
  constructor
  · rintro ⟨i, hi, hmatch⟩
    rw [List.mem_range] at hi
    unfold exclMatchAt at hmatch
    rw [Bool.or_eq_true, Bool.or_eq_true, Bool.or_eq_true] at hmatch
    rcases hmatch with ((h1 | h2) | h3) | h4
    · exact Or.inl ((ciMatchAt_drop_iff _ _).mp ⟨i, hi, h1⟩)
    · exact Or.inr (Or.inl ((ciMatchAt_drop_iff _ _).mp ⟨i, hi, h2⟩))
    · exact Or.inr (Or.inr (Or.inl ((ciMatchAt_drop_iff _ _).mp ⟨i, hi, h3⟩)))
    · cases hdrop : s.toList.drop i with
      | nil =>
        rw [hdrop] at h4
        cases h4
      | cons c tl =>
        rw [hdrop] at h4
        have hdig : c.isDigit = true := h4
        have hcmem : c ∈ s.toList.drop i := by rw [hdrop]; exact List.mem_cons_self c tl
        exact Or.inr (Or.inr (Or.inr ⟨c, List.mem_of_mem_drop hcmem, hdig⟩))
  · rintro (⟨l, r, hd⟩ | ⟨l, r, hd⟩ | ⟨l, r, hd⟩ | ⟨c, hc, hdig⟩)
    · obtain ⟨i, hi, hm⟩ := (ciMatchAt_drop_iff ['E', 'T', 'F'] s.toList).mpr ⟨l, r, hd⟩
      exact ⟨i, List.mem_range.mpr hi, by unfold exclMatchAt; rw [hm]; rfl⟩
    · obtain ⟨i, hi, hm⟩ := (ciMatchAt_drop_iff ['E', 'F', 'T'] s.toList).mpr ⟨l, r, hd⟩
      exact ⟨i, List.mem_range.mpr hi, by unfold exclMatchAt; rw [hm]; simp⟩
    · obtain ⟨i, hi, hm⟩ := (ciMatchAt_drop_iff ['F', 'G', 'S', 'U', 'K'] s.toList).mpr ⟨l, r, hd⟩
      exact ⟨i, List.mem_range.mpr hi, by unfold exclMatchAt; rw [hm]; simp⟩
    · obtain ⟨i, hilt, hget⟩ := List.mem_iff_getElem.mp hc
      have hdrop := List.drop_eq_getElem_cons hilt
      refine ⟨i, List.mem_range.mpr (by omega), ?_⟩
      unfold exclMatchAt
      have hh : headIsDigit (s.toList.drop i) = true := by
        rw [hdrop, hget]
        exact hdig
      rw [hh]
      simp

/-- C4 amended: a merged row survives the pattern-based exclusion stage
exactly when its symbol is NaN or contains none of ETF, EFT, FGSUK
(case-insensitively) and no digit; the pattern rejects SIAMLETF40 and GOLD1
and accepts DANGCEM; VETBANK is not matched by the pattern and is instead
removed by the explicit exclusion list of stage one. -/
theorem c4_pattern_characterization (df : List MRow) (r : MRow) :
    (r ∈ patternStage df ↔ r ∈ df ∧ ¬∃ s, r.base.symbol = some s ∧ SpecExcluded s)
    ∧ symbolMatchesPattern (some "SIAMLETF40") = true
    ∧ symbolMatchesPattern (some "GOLD1") = true
    ∧ symbolMatchesPattern (some "DANGCEM") = false
    ∧ (clean_data [vetbankRow]).excludedSpecific = 1
    ∧ (clean_data [vetbankRow]).excludedPattern = 0
    ∧ (clean_data [vetbankRow]).final = 0 := by
  refine ⟨?_, by decide, by decide, by decide, by decide, by decide, by decide⟩
  unfold patternStage
  simp only [List.mem_filter]
  constructor
  · rintro ⟨hmem, hb⟩
    refine ⟨hmem, ?_⟩
    rintro ⟨s, hsym, hspec⟩
    rw [Bool.not_eq_true'] at hb
    rw [hsym] at hb
    have hq : reSearchExcl s.toList = true := (reSearchExcl_iff s).mpr hspec
    have hb2 : reSearchExcl s.toList = false := hb
    rw [hq] at hb2
    cases hb2
  · rintro ⟨hmem, hnot⟩
    refine ⟨hmem, ?_⟩
    rw [Bool.not_eq_true']
    cases hsym : r.base.symbol with
    | none => rfl
    | some s =>
      show symbolMatchesPattern (some s) = false
      cases hq : reSearchExcl s.toList with
      | false => exact hq
      | true => exact absurd ⟨s, hsym, (reSearchExcl_iff s).mp hq⟩ hnot

/-- takeWhile passes over a block on which the predicate holds everywhere. -/
theorem takeWhile_append_all {α : Type} (p : α → Bool) (w rest : List α)
    (h : ∀ c ∈ w, p c = true) :
    (w ++ rest).takeWhile p = w ++ rest.takeWhile p := by
  induction w with
  | nil => simp
  | cons x xs ih =>
    have hx : p x = true := h x (List.mem_cons_self x xs)
    rw [List.cons_append, List.takeWhile_cons, if_pos hx,
      ih (fun c hc => h c (List.mem_cons_of_mem x hc)), List.cons_append]

/-- dropWhile skips a block on which the predicate holds everywhere. -/
theorem dropWhile_append_all {α : Type} (p : α → Bool) (w rest : List α)
    (h : ∀ c ∈ w, p c = true) :
    (w ++ rest).dropWhile p = rest.dropWhile p := by
  induction w with
  | nil => simp
  | cons x xs ih =>
    have hx : p x = true := h x (List.mem_cons_self x xs)
    rw [List.cons_append, List.dropWhile_cons, if_pos hx,
      ih (fun c hc => h c (List.mem_cons_of_mem x hc))]

/-- A nonempty whitespace-free word splits to just itself. -/
theorem pySplit_word (w : List Char) (hne : w ≠ [])
    (hws : ∀ c ∈ w, c.isWhitespace = false) : pySplit w = [w] := by
  cases w with
  | nil => exact absurd rfl hne
  | cons x xs =>
    have hx : x.isWhitespace = false := hws x (List.mem_cons_self x xs)
    have ht : xs.takeWhile (fun y => !y.isWhitespace) = xs :=
      List.takeWhile_eq_self_iff.mpr (fun c hc => by
        rw [hws c (List.mem_cons_of_mem x hc)]; rfl)
    have hd : xs.dropWhile (fun y => !y.isWhitespace) = [] :=
      List.dropWhile_eq_nil_iff.mpr (fun c hc => by
        rw [hws c (List.mem_cons_of_mem x hc)]; rfl)
    rw [pySplit]
    simp [hx, ht, hd, pySplit]

/-- Splitting a whitespace-free word glued before a space: the word pops off
and the rest splits on its own. -/
theorem pySplit_word_space (w t : List Char) (hne : w ≠ [])
    (hws : ∀ c ∈ w, c.isWhitespace = false) :
    pySplit (w ++ ' ' :: t) = w :: pySplit t := by
  cases w with
  | nil => exact absurd rfl hne
  | cons x xs =>
    have hx : x.isWhitespace = false := hws x (List.mem_cons_self x xs)
    have hxs : ∀ c ∈ xs, (fun y : Char => !y.isWhitespace) c = true := fun c hc => by
      show (!c.isWhitespace) = true
      rw [hws c (List.mem_cons_of_mem x hc)]
      rfl
    have ht : (xs ++ ' ' :: t).takeWhile (fun y => !y.isWhitespace) = xs := by
      rw [takeWhile_append_all _ xs (' ' :: t) hxs, List.takeWhile_cons,
        if_neg (by decide), List.append_nil]
    have hd : (xs ++ ' ' :: t).dropWhile (fun y => !y.isWhitespace) = ' ' :: t := by
      rw [dropWhile_append_all _ xs (' ' :: t) hxs, List.dropWhile_cons, if_neg (by decide)]
    have hsp : pySplit (' ' :: t) = pySplit t := by
      rw [pySplit]
      simp
    show pySplit (x :: (xs ++ ' ' :: t)) = (x :: xs) :: pySplit t
    rw [pySplit]
    simp only [hx, Bool.false_eq_true, if_false, ht, hd, hsp]

/-- pySplit inverts the space-join of nonempty whitespace-free cells. -/
theorem pySplit_joinSpaces :
    ∀ cells : List (List Char),
      (∀ w ∈ cells, w ≠ []) →
      (∀ w ∈ cells, ∀ c ∈ w, c.isWhitespace = false) →
      pySplit (joinSpaces cells) = cells := by
  intro cells
  induction cells with
  | nil =>
    intro _ _
    show pySplit [] = []
    rw [pySplit]
  | cons w ws ih =>
    intro hne hws
    cases ws with
    | nil => exact pySplit_word w (hne w (by simp)) (hws w (by simp))
    | cons w2 rest =>
      have h1 : joinSpaces (w :: w2 :: rest) = w ++ ' ' :: joinSpaces (w2 :: rest) := rfl
      rw [h1, pySplit_word_space w _ (hne w (by simp)) (hws w (by simp)),
        ih (fun u hu => hne u (List.mem_cons_of_mem w hu))
           (fun u hu => hws u (List.mem_cons_of_mem w hu))]

/-- Every word produced by pySplit is nonempty. -/
theorem pySplit_word_ne_nil : ∀ (cs : List Char), ∀ w ∈ pySplit cs, w ≠ [] := by
  intro cs
  induction cs using pySplit.induct with
  | case1 =>
    intro w hw
    have h0 : pySplit [] = [] := by rw [pySplit]
    rw [h0] at hw
    cases hw
  | case2 c cs hc ih =>
    intro w hw
    have hsp : pySplit (c :: cs) = pySplit cs := by
      rw [pySplit]; simp [hc]
    rw [hsp] at hw
    exact ih w hw
  | case3 c cs hc ih =>
    intro w hw
    have hc2 : c.isWhitespace = false := by
      cases h : c.isWhitespace
      · rfl
      · exact absurd h hc
    have hsp : pySplit (c :: cs) = (c :: cs.takeWhile (fun x => !x.isWhitespace)) ::
        pySplit (cs.dropWhile (fun x => !x.isWhitespace)) := by
      rw [pySplit]; simp [hc2]
    rw [hsp] at hw
    rcases List.mem_cons.mp hw with h | h
    · rw [h]
      exact List.cons_ne_nil c _
    · exact ih w h

/-- The glued form of a nonempty cell list is nonempty. -/
theorem joinSpaces_ne_nil :
    ∀ cells : List (List Char), cells ≠ [] → (∀ w ∈ cells, w ≠ []) →
      joinSpaces cells ≠ [] := by
  intro cells
  cases cells with
  | nil => intro h _; exact absurd rfl h
  | cons w ws =>
    intro _ hne
    cases ws with
    | nil => exact hne w (by simp)
    | cons w2 rest =>
      show w ++ ' ' :: joinSpaces (w2 :: rest) ≠ []
      intro h
      rcases List.append_eq_nil.mp h with ⟨-, h2⟩
      cases h2

/-- The last character of the glued form comes from one of the cells. -/
theorem joinSpaces_getLast? :
    ∀ cells : List (List Char), cells ≠ [] → (∀ w ∈ cells, w ≠ []) →
      ∃ u ∈ cells, (joinSpaces cells).getLast? = u.getLast? := by
  intro cells
  induction cells with
  | nil => intro h _; exact absurd rfl h
  | cons w ws ih =>
    intro _ hne
    cases ws with
    | nil => exact ⟨w, by simp, rfl⟩
    | cons w2 rest =>
      obtain ⟨u, hu, hju⟩ := ih (by simp)
        (fun v hv => hne v (List.mem_cons_of_mem w hv))
      refine ⟨u, List.mem_cons_of_mem w hu, ?_⟩
      have hjoin : joinSpaces (w :: w2 :: rest) = w ++ ' ' :: joinSpaces (w2 :: rest) := rfl
      have hne2 : joinSpaces (w2 :: rest) ≠ [] :=
        joinSpaces_ne_nil _ (by simp) (fun v hv => hne v (List.mem_cons_of_mem w hv))
      rw [hjoin, List.getLast?_append]
      cases hj : joinSpaces (w2 :: rest) with
      | nil => exact absurd hj hne2
      | cons z zs =>
        rw [hj] at hju
        have h3 : (' ' :: z :: zs).getLast? = (z :: zs).getLast? := List.getLast?_cons_cons
        rw [h3]
        cases hlz : (z :: zs).getLast? with
        | none =>
          rw [List.getLast?_eq_none_iff] at hlz
          cases hlz
        | some a =>
          rw [hlz] at hju
          calc (some a).or w.getLast? = some a := rfl
            _ = u.getLast? := hju

/-- A list whose first and last characters are not whitespace strips to
itself. -/
theorem pyStrip_eq_self (cs : List Char)
    (hhead : ∀ c, cs.head? = some c → c.isWhitespace = false)
    (hlast : ∀ c, cs.getLast? = some c → c.isWhitespace = false) :
    pyStrip cs = cs := by
  unfold pyStrip
  have h1 : cs.dropWhile Char.isWhitespace = cs := by
    cases cs with
    | nil => rfl
    | cons x xs =>
      have hx := hhead x rfl
      rw [List.dropWhile_cons]
      simp [hx]
  rw [h1]
  have h2 : cs.reverse.dropWhile Char.isWhitespace = cs.reverse := by
    cases hrev : cs.reverse with
    | nil => rfl
    | cons y ys =>
      have hy : cs.getLast? = some y := by
        rw [← List.head?_reverse, hrev]
        rfl
      have hyw := hlast y hy
      rw [List.dropWhile_cons]
      simp [hyw]
  rw [h2, List.reverse_reverse]

/-- A whitespace-free list strips to itself. -/
theorem pyStrip_all_not_ws (w : List Char)
    (hws : ∀ c ∈ w, c.isWhitespace = false) : pyStrip w = w := by
  apply pyStrip_eq_self
  · intro c hc
    cases w with
    | nil => cases hc
    | cons x xs =>
      have : c = x := (Option.some.inj hc).symm
      rw [this]
      exact hws x (List.mem_cons_self x xs)
  · intro c hc
    have hwne : w ≠ [] := by
      intro h
      rw [h] at hc
      cases hc
    rw [List.getLast?_eq_getLast w hwne] at hc
    have hcw : c = w.getLast hwne := (Option.some.inj hc).symm
    rw [hcw]
    exact hws _ (List.getLast_mem hwne)

/-- The recovery branch of processRow fires on a nonempty stripped first cell
holding at least 13 whitespace tokens with a digit-run leading token, when
every other cell is blank. -/
theorem processRow_recovery (s0 : List Char) (rest : List (Option (List Char)))
    (hs0 : s0 ≠ [])
    (hstrip : pyStrip s0 = s0)
    (hcont : s0.contains ' ' = true)
    (hdig : pyIsDigit ((pySplit s0).headD []) = true)
    (hrest : rest.all cellBlank = true)
    (hlen13 : 13 ≤ (pySplit s0).length) :
    processRow (some s0 :: rest) = some (((pySplit s0).take 13).map some) := by
  have he : s0.isEmpty = false := List.isEmpty_eq_false.mpr hs0
  have hne1 : ¬(s0.isEmpty = true) := by rw [he]; exact Bool.false_ne_true
  have hc1 : (!(pyStrip s0).isEmpty && (pyStrip s0).contains ' ' &&
      pyIsDigit ((pySplit (pyStrip s0)).headD [])) = true := by
    rw [hstrip, he, hcont, hdig]
    rfl
  have hlen2 : 13 ≤ (pySplit (pyStrip s0)).length := by rw [hstrip]; exact hlen13
  simp only [processRow]
  rw [if_neg hne1, if_pos hc1, if_pos hrest, if_pos hlen2, hstrip]

/-- The verbatim branch of processRow keeps a row whose stripped first cell
is a space-free digit run. -/
theorem processRow_verbatim (s0 : List Char) (rest : List (Option (List Char)))
    (hs0 : s0 ≠ [])
    (hstrip : pyStrip s0 = s0)
    (hcont : s0.contains ' ' = false)
    (hdig : pyIsDigit s0 = true) :
    processRow (some s0 :: rest) = some (some s0 :: rest) := by
  have he : s0.isEmpty = false := List.isEmpty_eq_false.mpr hs0
  have hne1 : ¬(s0.isEmpty = true) := by rw [he]; exact Bool.false_ne_true
  have hc1 : (!(pyStrip s0).isEmpty && (pyStrip s0).contains ' ' &&
      pyIsDigit ((pySplit (pyStrip s0)).headD [])) = false := by
    rw [hstrip, hcont, Bool.and_false, Bool.false_and]
  have hc2 : (!(pyStrip s0).isEmpty &&
      (pyIsDigit (pyStrip s0) ||
       (decide ((pyStrip s0).length ≤ 15) &&
         pyIsAlnum ((pyStrip s0).filter (fun c => c ≠ '.' && c ≠ '-' && c ≠ '/'))) ||
       pyIsDigit ((pyStrip s0).filter (fun c => c ≠ '.' && c ≠ '-' && c ≠ ',')) ||
       (decide ((pyStrip s0).length ≤ 10) && (pyStrip s0).any Char.isAlphanum))) = true := by
    rw [hstrip, he, hdig]
    simp only [Bool.true_or]
    rfl
  simp only [processRow]
  rw [if_neg hne1, if_neg (by rw [hc1]; exact Bool.false_ne_true), if_pos hc2]

/-- C7: given 13 nonempty whitespace-free cell texts with a digit-run leading
token, the extractor recovers the row whose whole content is collapsed into
the first cell (all other cells empty) by splitting on whitespace and taking
the first 13 tokens, and the result equals what it accepts for the same row
in un-collapsed form. A row passing neither the recovery nor the verbatim
check (third conjunct) is dropped with no error. -/
theorem c7_collapsed_row_recovery (cells : List (List Char))
    (hlen : cells.length = 13)
    (hne : ∀ w ∈ cells, w ≠ [])
    (hws : ∀ w ∈ cells, ∀ c ∈ w, c.isWhitespace = false)
    (hd : pyIsDigit (cells.headD []) = true) :
    processRow (some (joinSpaces cells) :: List.replicate 12 none)
      = some (cells.map some)
    ∧ processRow (cells.map some) = some (cells.map some)
    ∧ processRow (some (List.replicate 16 '@') :: List.replicate 12 none) = none := by
  cases cells with
  | nil => cases hlen
  | cons w ws =>
    cases ws with
    | nil => cases hlen
    | cons w2 rrest =>
      have hwne : w ≠ [] := hne w (List.mem_cons_self w _)
      have hcells_ne : (w :: w2 :: rrest : List (List Char)) ≠ [] := List.cons_ne_nil _ _
      have hsplit : pySplit (joinSpaces (w :: w2 :: rrest)) = w :: w2 :: rrest :=
        pySplit_joinSpaces _ hne hws
      have hjoin : joinSpaces (w :: w2 :: rrest) = w ++ ' ' :: joinSpaces (w2 :: rrest) := rfl
      have hstripj : pyStrip (joinSpaces (w :: w2 :: rrest)) = joinSpaces (w :: w2 :: rrest) := by
        apply pyStrip_eq_self
        · intro c hc
          cases hw : w with
          | nil => exact absurd hw hwne
          | cons x xs =>
            have hx : (joinSpaces (w :: w2 :: rrest)).head? = some x := by
              rw [hjoin, hw]
              rfl
            rw [hx] at hc
            obtain rfl : x = c := Option.some.inj hc
            exact hws w (List.mem_cons_self w _) x (by rw [hw]; exact List.mem_cons_self x xs)
        · intro c hc
          obtain ⟨u, hu, hju⟩ := joinSpaces_getLast? _ hcells_ne hne
          rw [hju] at hc
          have hune : u ≠ [] := hne u hu
          rw [List.getLast?_eq_getLast u hune] at hc
          obtain rfl : u.getLast hune = c := Option.some.inj hc
          exact hws u hu _ (List.getLast_mem hune)
      have hcontj : (joinSpaces (w :: w2 :: rrest)).contains ' ' = true := by
        show List.elem ' ' (joinSpaces (w :: w2 :: rrest)) = true
        apply List.elem_iff.mpr
        rw [hjoin]
        exact List.mem_append_right w (List.mem_cons_self ' ' _)
      have hjne : joinSpaces (w :: w2 :: rrest) ≠ [] := joinSpaces_ne_nil _ hcells_ne hne
      have hdigj : pyIsDigit ((pySplit (joinSpaces (w :: w2 :: rrest))).headD []) = true := by
        rw [hsplit]
        exact hd
      have hlen13 : 13 ≤ (pySplit (joinSpaces (w :: w2 :: rrest))).length := by
        rw [hsplit, hlen]
      refine ⟨?_, ?_, by decide⟩
      · rw [processRow_recovery _ _ hjne hstripj hcontj hdigj (by decide) hlen13, hsplit,
          List.take_of_length_le (le_of_eq hlen)]
      · show processRow (some w :: (w2 :: rrest).map some) = some (some w :: (w2 :: rrest).map some)
        have hwstrip : pyStrip w = w := pyStrip_all_not_ws w (hws w (List.mem_cons_self w _))
        have hwcont : w.contains ' ' = false := by
          cases hcc : w.contains ' ' with
          | false => rfl
          | true =>
            have hmem : ' ' ∈ w := List.elem_iff.mp hcc
            have := hws w (List.mem_cons_self w _) ' ' hmem
            exact absurd this (by decide)
        exact processRow_verbatim w _ hwne hwstrip hwcont hd

/-- C7 witness: the recovery equivalence evaluated on 13 concrete cells. -/
theorem c7_collapsed_row_recovery_witness :
    processRow (some (joinSpaces c7Cells) :: List.replicate 12 none)
      = some (c7Cells.map some)
    ∧ processRow (c7Cells.map some) = some (c7Cells.map some)
    ∧ processRow (some (List.replicate 16 '@') :: List.replicate 12 none) = none :=
  c7_collapsed_row_recovery c7Cells (by decide) (by decide) (by decide) (by decide)

/-- A branch that either keeps the row (whose head cell is the nonempty s0)
or drops it can only output a row with a nonempty leading cell. -/
theorem ite_some_row {C : Prop} [Decidable C] (s0 : List Char)
    (rest out : List (Option (List Char)))
    (hs0 : s0 ≠ [])
    (h : (if C then some (some s0 :: rest) else none) = some out) :
    ∃ s, out.headD none = some s ∧ s ≠ [] := by
  split at h
  · obtain rfl : some s0 :: rest = out := Option.some.inj h
    exact ⟨s0, rfl, hs0⟩
  · cases h

/-- Every row processRow accepts has a nonempty leading cell. -/
theorem processRow_head_ne_nil (row out : List (Option (List Char)))
    (h : processRow row = some out) :
    ∃ s, out.headD none = some s ∧ s ≠ [] := by
  cases row with
  | nil => simp [processRow] at h
  | cons cell0 rest =>
    cases cell0 with
    | none => simp [processRow] at h
    | some s0 =>
      simp only [processRow] at h
      split at h
      · cases h
      · rename_i hs0e
        have hs0 : s0 ≠ [] := by
          intro hnil
          rw [hnil] at hs0e
          exact hs0e rfl
        split at h
        · split at h
          · split at h
            · rename_i hlen13
              obtain rfl : ((pySplit (pyStrip s0)).take 13).map some = out := Option.some.inj h
              cases hp : pySplit (pyStrip s0) with
              | nil =>
                rw [hp] at hlen13
                simp at hlen13
              | cons p0 ptl =>
                refine ⟨p0, ?_, ?_⟩
                · rfl
                · exact pySplit_word_ne_nil (pyStrip s0) p0
                    (by rw [hp]; exact List.mem_cons_self p0 ptl)
            · exact ite_some_row s0 rest out hs0 h
          · exact ite_some_row s0 rest out hs0 h
        · exact ite_some_row s0 rest out hs0 h

/-- C10 amended: every row in the extractor output has a nonempty leading
(sequence-number) cell; the acceptance heuristic inspects only that cell, so
the symbol cell may still be empty. -/
theorem c10_leading_cell_nonempty (pages : List (Option (List (List (Option (List Char))))))
    (r : List (Option (List Char))) (h : r ∈ extractTables pages) :
    ∃ s, r.headD none = some s ∧ s ≠ [] := by
  unfold extractTables at h
  rw [List.mem_flatMap] at h
  obtain ⟨page, hpage, hr⟩ := h
  cases page with
  | none => cases hr
  | some tbl =>
    rw [List.mem_filterMap] at hr
    obtain ⟨row, hrow, hpr⟩ := hr
    exact processRow_head_ne_nil row r hpr

/-- C10 witness: the amended statement evaluated on a one-row page. -/
theorem c10_leading_cell_nonempty_witness :
    ∃ s, (c10GoodRow.headD none) = some s ∧ s ≠ [] :=
  c10_leading_cell_nonempty [some [c10GoodRow]] c10GoodRow (by decide)

/-- Reading a digit character back gives the digit. -/
theorem digitChar_val (d : Nat) (h : d < 10) : (Nat.digitChar d).toNat - 48 = d := by
  interval_cases d <;> decide

/-- Digit characters are digits. -/
theorem digitChar_isDigit (d : Nat) (h : d < 10) : (Nat.digitChar d).isDigit = true := by
  interval_cases d <;> decide

/-- A digit character is not a dot. -/
theorem isDigit_ne_dot {c : Char} (h : c.isDigit = true) : c ≠ '.' := by
  intro hc
  rw [hc] at h
  exact absurd h (by decide)

/-- A digit character is not a minus sign. -/
theorem isDigit_ne_minus {c : Char} (h : c.isDigit = true) : c ≠ '-' := by
  intro hc
  rw [hc] at h
  exact absurd h (by decide)

/-- A digit character is not a comma. -/
theorem isDigit_ne_comma {c : Char} (h : c.isDigit = true) : c ≠ ',' := by
  intro hc
  rw [hc] at h
  exact absurd h (by decide)

/-- Appending one character to a digit string multiplies by ten and adds. -/
theorem charsToNat_append_one (xs : List Char) (x : Char) :
    charsToNat (xs ++ [x]) = 10 * charsToNat xs + (x.toNat - 48) := by
  unfold charsToNat
  rw [List.foldl_append]
  rfl

/-- Reading back the rendered digits of a little-endian digit list. -/
theorem charsToNat_map_digitChar :
    ∀ L : List Nat, (∀ d ∈ L, d < 10) →
      charsToNat ((L.map Nat.digitChar).reverse) = Nat.ofDigits 10 L := by
  intro L
  induction L with
  | nil =>
    intro _
    rfl
  | cons d L ih =>
    intro hall
    rw [List.map_cons, List.reverse_cons, charsToNat_append_one,
      ih (fun x hx => hall x (List.mem_cons_of_mem d hx)),
      digitChar_val d (hall d (List.mem_cons_self d L)), Nat.ofDigits_cons]
    omega

/-- Reading back the big-endian digit characters of n gives n. -/
theorem charsToNat_natChars (n : Nat) : charsToNat (natChars n) = n := by
  unfold natChars
  rw [charsToNat_map_digitChar (Nat.digits 10 n)
    (fun d hd => Nat.digits_lt_base (by norm_num) hd), Nat.ofDigits_digits]

/-- Every character of natChars is a digit. -/
theorem natChars_all_digit (n : Nat) : ∀ c ∈ natChars n, c.isDigit = true := by
  intro c hc
  unfold natChars at hc
  rw [List.mem_reverse, List.mem_map] at hc
  obtain ⟨d, hd, rfl⟩ := hc
  exact digitChar_isDigit d (Nat.digits_lt_base (by norm_num) hd)

/-- Leading zeros do not change the value read back. -/
theorem charsToNat_replicate_zero (k : Nat) (cs : List Char) :
    charsToNat (List.replicate k '0' ++ cs) = charsToNat cs := by
  unfold charsToNat
  rw [List.foldl_append]
  have h0 : List.foldl (fun a c => 10 * a + (c.toNat - 48)) 0 (List.replicate k '0') = 0 := by
    induction k with
    | zero => rfl
    | succ k ih =>
      rw [List.replicate_succ, List.foldl_cons]
      exact ih
  rw [h0]

/-- Every character of the zero-padded digit block is a digit. -/
theorem padded_all_digit (n e : Nat) :
    ∀ c ∈ List.replicate (e + 1 - (natChars n).length) '0' ++ natChars n,
      c.isDigit = true := by
  intro c hc
  rcases List.mem_append.mp hc with h | h
  · rw [(List.mem_replicate.mp h).2]
    decide
  · exact natChars_all_digit n c h

/-- The zero-padded digit block is longer than e. -/
theorem padded_length (n e : Nat) :
    e < (List.replicate (e + 1 - (natChars n).length) '0' ++ natChars n).length := by
  rw [List.length_append, List.length_replicate]
  omega

/-- The zero-padded digit block still reads back as n. -/
theorem charsToNat_padded (n e : Nat) :
    charsToNat (List.replicate (e + 1 - (natChars n).length) '0' ++ natChars n) = n := by
  rw [charsToNat_replicate_zero, charsToNat_natChars]

/-- parseUnsigned on an all-digit dotless string. -/
theorem parseUnsigned_nodot (cs : List Char)
    (hA : cs.all Char.isDigit = true) (hne : cs.isEmpty = false) :
    parseUnsigned cs = some (charsToNat cs, 0) := by
  have hdig : ∀ c ∈ cs, c.isDigit = true := List.all_eq_true.mp hA
  have htake : cs.takeWhile (fun c => c ≠ '.') = cs :=
    List.takeWhile_eq_self_iff.mpr (fun c hc => decide_eq_true (isDigit_ne_dot (hdig c hc)))
  have hdrop : cs.dropWhile (fun c => c ≠ '.') = [] :=
    List.dropWhile_eq_nil_iff.mpr (fun c hc => decide_eq_true (isDigit_ne_dot (hdig c hc)))
  simp only [parseUnsigned]
  rw [htake, hdrop]
  simp [hA, hne]

/-- parseUnsigned on a digit block, a dot, and a digit block. -/
theorem parseUnsigned_split (A B : List Char)
    (hA : A.all Char.isDigit = true) (hB : B.all Char.isDigit = true)
    (hAne : A.isEmpty = false) :
    parseUnsigned (A ++ '.' :: B) = some (charsToNat (A ++ B), B.length) := by
  have hdigA : ∀ c ∈ A, c.isDigit = true := List.all_eq_true.mp hA
  have hpredA : ∀ c ∈ A, (fun c : Char => decide (c ≠ '.')) c = true :=
    fun c hc => decide_eq_true (isDigit_ne_dot (hdigA c hc))
  have htake : (A ++ '.' :: B).takeWhile (fun c => c ≠ '.') = A := by
    rw [takeWhile_append_all _ A ('.' :: B) hpredA, List.takeWhile_cons,
      if_neg (by decide), List.append_nil]
  have hdrop : (A ++ '.' :: B).dropWhile (fun c => c ≠ '.') = '.' :: B := by
    rw [dropWhile_append_all _ A ('.' :: B) hpredA, List.dropWhile_cons, if_neg (by decide)]
  simp only [parseUnsigned]
  rw [htake, hdrop]
  simp [hA, hB, hAne]

/-- parseUnsigned reads the rendered unsigned decimal back exactly. -/
theorem parseUnsigned_decChars (n e : Nat) : parseUnsigned (decChars n e) = some (n, e) := by
  cases e with
  | zero =>
    have hd : decChars n 0 = List.replicate (0 + 1 - (natChars n).length) '0' ++ natChars n := by
      simp only [decChars]
      rw [if_pos trivial]
    rw [hd, parseUnsigned_nodot _
      (List.all_eq_true.mpr (padded_all_digit n 0))
      (List.isEmpty_eq_false.mpr (by
        intro hnil
        have := padded_length n 0
        rw [hnil] at this
        simp at this)),
      charsToNat_padded]
  | succ e2 =>
    have hplen := padded_length n (e2 + 1)
    have hd : decChars n (e2 + 1) =
        (List.replicate (e2 + 1 + 1 - (natChars n).length) '0' ++ natChars n).take
          ((List.replicate (e2 + 1 + 1 - (natChars n).length) '0' ++ natChars n).length - (e2 + 1))
        ++ '.' :: (List.replicate (e2 + 1 + 1 - (natChars n).length) '0' ++ natChars n).drop
          ((List.replicate (e2 + 1 + 1 - (natChars n).length) '0' ++ natChars n).length - (e2 + 1)) := by
      simp only [decChars]
      rw [if_neg (Nat.succ_ne_zero e2)]
    rw [hd]
    have hAne : ((List.replicate (e2 + 1 + 1 - (natChars n).length) '0' ++ natChars n).take
        ((List.replicate (e2 + 1 + 1 - (natChars n).length) '0' ++ natChars n).length - (e2 + 1))).isEmpty
          = false := by
      apply List.isEmpty_eq_false.mpr
      intro hnil
      rcases List.take_eq_nil_iff.mp hnil with h | h
      · omega
      · rw [h] at hplen
        simp at hplen
    rw [parseUnsigned_split _ _
      (List.all_eq_true.mpr (fun c hc => padded_all_digit n (e2 + 1) c (List.mem_of_mem_take hc)))
      (List.all_eq_true.mpr (fun c hc => padded_all_digit n (e2 + 1) c (List.mem_of_mem_drop hc)))
      hAne,
      List.take_append_drop, charsToNat_padded, List.length_drop]
    have : (List.replicate (e2 + 1 + 1 - (natChars n).length) '0' ++ natChars n).length -
        ((List.replicate (e2 + 1 + 1 - (natChars n).length) '0' ++ natChars n).length - (e2 + 1))
          = e2 + 1 := by omega
    rw [this]

/-- The rendered unsigned decimal starts with a digit, and every character of
it is a dot or a digit. -/
theorem decChars_shape (n e : Nat) :
    ∃ c cs, decChars n e = c :: cs ∧ c.isDigit = true ∧
      ∀ x ∈ decChars n e, x = '.' ∨ x.isDigit = true := by
  cases e with
  | zero =>
    have hd : decChars n 0 = List.replicate (0 + 1 - (natChars n).length) '0' ++ natChars n := by
      simp only [decChars]
      rw [if_pos trivial]
    cases hP : List.replicate (0 + 1 - (natChars n).length) '0' ++ natChars n with
    | nil =>
      have := padded_length n 0
      rw [hP] at this
      simp at this
    | cons c cs =>
      refine ⟨c, cs, by rw [hd, hP], ?_, ?_⟩
      · exact padded_all_digit n 0 c (by rw [hP]; exact List.mem_cons_self c cs)
      · intro x hx
        rw [hd] at hx
        exact Or.inr (padded_all_digit n 0 x hx)
  | succ e2 =>
    have hplen := padded_length n (e2 + 1)
    have hd : decChars n (e2 + 1) =
        (List.replicate (e2 + 1 + 1 - (natChars n).length) '0' ++ natChars n).take
          ((List.replicate (e2 + 1 + 1 - (natChars n).length) '0' ++ natChars n).length - (e2 + 1))
        ++ '.' :: (List.replicate (e2 + 1 + 1 - (natChars n).length) '0' ++ natChars n).drop
          ((List.replicate (e2 + 1 + 1 - (natChars n).length) '0' ++ natChars n).length - (e2 + 1)) := by
      simp only [decChars]
      rw [if_neg (Nat.succ_ne_zero e2)]
    have hmem : ∀ x ∈ decChars n (e2 + 1), x = '.' ∨ x.isDigit = true := by
      intro x hx
      rw [hd] at hx
      rcases List.mem_append.mp hx with h | h
      · exact Or.inr (padded_all_digit n (e2 + 1) x (List.mem_of_mem_take h))
      · rcases List.mem_cons.mp h with h2 | h2
        · exact Or.inl h2
        · exact Or.inr (padded_all_digit n (e2 + 1) x (List.mem_of_mem_drop h2))
    cases hA : (List.replicate (e2 + 1 + 1 - (natChars n).length) '0' ++ natChars n).take
        ((List.replicate (e2 + 1 + 1 - (natChars n).length) '0' ++ natChars n).length - (e2 + 1)) with
    | nil =>
      rcases List.take_eq_nil_iff.mp hA with h | h
      · omega
      · rw [h] at hplen
        simp at hplen
    | cons c cs =>
      refine ⟨c, cs ++ '.' :: (List.replicate (e2 + 1 + 1 - (natChars n).length) '0' ++ natChars n).drop
        ((List.replicate (e2 + 1 + 1 - (natChars n).length) '0' ++ natChars n).length - (e2 + 1)),
        ?_, ?_, hmem⟩
      · rw [hd, hA, List.cons_append]
      · have hcmem : c ∈ (List.replicate (e2 + 1 + 1 - (natChars n).length) '0' ++ natChars n).take
            ((List.replicate (e2 + 1 + 1 - (natChars n).length) '0' ++ natChars n).length - (e2 + 1)) := by
          rw [hA]
          exact List.mem_cons_self c cs
        exact padded_all_digit n (e2 + 1) c (List.mem_of_mem_take hcmem)

/-- The rendered decimal is never the empty string. -/
theorem render_ne_nil (d : Dec) : d.render ≠ [] := by
  obtain ⟨c, cs, hshape, -, -⟩ := decChars_shape d.m.natAbs d.e
  unfold Dec.render
  split
  · simp
  · rw [List.nil_append, hshape]
    exact List.cons_ne_nil c cs

/-- Every character of the rendered decimal is a minus, a dot or a digit. -/
theorem render_mem (d : Dec) :
    ∀ x ∈ d.render, x = '-' ∨ x = '.' ∨ x.isDigit = true := by
  intro x hx
  unfold Dec.render at hx
  rcases List.mem_append.mp hx with h | h
  · split at h
    · rcases List.mem_cons.mp h with h2 | h2
      · exact Or.inl h2
      · cases h2
    · cases h
  · obtain ⟨-, -, -, -, hmem⟩ := decChars_shape d.m.natAbs d.e
    rcases hmem x h with h2 | h2
    · exact Or.inr (Or.inl h2)
    · exact Or.inr (Or.inr h2)

/-- Removing commas leaves the rendered decimal unchanged. -/
theorem render_filter_comma (d : Dec) :
    d.render.filter (fun ch => ch ≠ ',') = d.render := by
  apply List.filter_eq_self.mpr
  intro c hc
  rcases render_mem d c hc with h | h | h
  · rw [h]; decide
  · rw [h]; decide
  · exact decide_eq_true (isDigit_ne_comma h)

/-- Parsing the rendered decimal recovers the decimal exactly. -/
theorem parseDec_render (d : Dec) : parseDec d.render = some d := by
  obtain ⟨c, cs, hshape, hcd, -⟩ := decChars_shape d.m.natAbs d.e
  unfold Dec.render
  by_cases hm : d.m < 0
  · rw [if_pos hm]
    show parseDec ('-' :: decChars d.m.natAbs d.e) = some d
    simp only [parseDec]
    rw [if_pos trivial, parseUnsigned_decChars]
    show some (Dec.mk (-(d.m.natAbs : Int)) d.e) = some d
    have hmm : -(d.m.natAbs : Int) = d.m := by omega
    rw [hmm]
  · rw [if_neg hm, List.nil_append, hshape]
    simp only [parseDec]
    rw [if_neg (isDigit_ne_minus hcd), ← hshape, parseUnsigned_decChars]
    show some (Dec.mk (d.m.natAbs : Int) d.e) = some d
    have hmm : (d.m.natAbs : Int) = d.m := by omega
    rw [hmm]

/-- Re-coercing an already numeric cell changes nothing. -/
theorem coerceCell_num (d : Dec) : coerceCell (.num d) = .num d := by
  unfold coerceCell
  show (if d.render.filter (fun ch => ch ≠ ',') = [] then Cell.nan
    else toNumericCoerce (d.render.filter (fun ch => ch ≠ ','))) = Cell.num d
  rw [render_filter_comma, if_neg (render_ne_nil d)]
  unfold toNumericCoerce
  rw [parseDec_render]

/-- Coercing NaN yields NaN. -/
theorem coerceCell_nan : coerceCell .nan = .nan := by decide

/-- Coercion only produces NaN or a number. -/
theorem coerceCell_shape (c : Cell) : coerceCell c = .nan ∨ ∃ d, coerceCell c = .num d := by
  simp only [coerceCell]
  split
  · exact Or.inl rfl
  · unfold toNumericCoerce
    cases hp : parseDec ((astypeStr c).filter (fun ch => ch ≠ ',')) with
    | none => exact Or.inl rfl
    | some d => exact Or.inr ⟨d, rfl⟩

/-- C8: the numeric coercion of the extractor is idempotent on every cell;
the text 12,345.50 (with a thousands separator) coerces to the number
12345.50; and the empty string coerces to NaN, all without any error path. -/
theorem c8_numeric_coercion_idempotent :
    (∀ c : Cell, coerceCell (coerceCell c) = coerceCell c)
    ∧ coerceCell (.str ['1', '2', ',', '3', '4', '5', '.', '5', '0']) = .num ⟨1234550, 2⟩
    ∧ Dec.toRat ⟨1234550, 2⟩ = 12345.5
    ∧ coerceCell (.str []) = .nan := by
  refine ⟨?_, by decide, ?_, by decide⟩
  · intro c
    rcases coerceCell_shape c with h | ⟨d, h⟩
    · rw [h, coerceCell_nan]
    · rw [h, coerceCell_num]
  · show ((1234550 : Int) : ℚ) / (10 : ℚ) ^ (2 : Nat) = 12345.5
    norm_num
